import Mathlib

/-!
# Verification development for the TWPatcher core

Shallow embedding of the core of the `twpatcher` repository:

* the load-order resolver (`src/utils.rs`, `load_order_from_file`);
* the translation merge engine (`src/games/mod.rs`, `prepare_translations`);
* the SQL patch pipeline (`src/games/mod.rs`, `prepare_sql_queries` and
  `rename_file_name_to_low_priority`);
* the per-pass CLI guards of the transform passes.

Rust `String`s are modelled by Lean `String`s (the byte-indexed slicing in
the source only ever happens after an ASCII `starts_with` check, so
character-based `String.drop`/`String.dropRight` agree with the source's byte
slicing on the lines it is applied to).  `PathBuf` values are modelled as
strings joined with `"/"`.  Filesystem access is modelled by an explicit
`Fs` structure of query functions.
-/

/-! ## Filesystem model

`Fs.isFile d` answers whether path `d` is an existing file
(`Path::is_file`).  `Fs.filesIn d` models `files_from_subdir(d, false)`:
`none` is the `Err` case (swallowed by the caller), `some l` the list of
file paths directly under `d`.  `Fs.isMovie p` models opening the pack at
`p` and reading its file type: `none` is a read failure (swallowed),
`some b` tells whether the pack self-identifies as a Movie pack. -/

structure Fs where
  isFile : String → Bool
  filesIn : String → Option (List String)
  isMovie : String → Option Bool

def joinPath (d n : String) : String := d ++ "/" ++ n

/-! ### Models of the `str`/`Path` operations used by the source

Lean core's `String.startsWith`, `trim`, `splitOn`, ... are byte-offset
loops the kernel cannot evaluate on literals, so the Rust `str` operations
are modelled directly on the character lists; they agree with the core
functions on every input that occurs here (ASCII text). -/

/-- Rust `str::starts_with`. -/
def strStartsWith (s pre : String) : Bool := pre.data.isPrefixOf s.data

/-- Rust byte-range slicing `x[n..]` (the source only slices at ASCII
offsets, where byte and character indices agree). -/
def strDrop (s : String) (n : Nat) : String := ⟨s.data.drop n⟩

/-- Rust byte-range slicing `x[..len - n]`. -/
def strDropRight (s : String) (n : Nat) : String := ⟨s.data.take (s.data.length - n)⟩

/-- Rust `str::trim`. -/
def strTrim (s : String) : String :=
  ⟨((s.data.dropWhile Char.isWhitespace).reverse.dropWhile Char.isWhitespace).reverse⟩

/-- Rust `str::split('/')` (also the component split of a `/`-joined
path). -/
def splitOnSlash (s : String) : List String :=
  (s.data.foldr
    (fun c acc =>
      if c = '/' then [] :: acc
      else
        match acc with
        | h :: t => (c :: h) :: t
        | [] => [[c]])
    [[]]).map (fun l => ⟨l⟩)

/-- Rust `[&str]::join("/")`. -/
def joinSlash (segs : List String) : String :=
  match segs with
  | [] => ""
  | h :: t => t.foldl (fun a s => a ++ "/" ++ s) h

/-- Rust `Path::ends_with` on `/`-joined paths: a whole-component suffix
match (per the std docs, `/etc/resolv.conf` does *not* end with `"conf"`),
unlike the string-suffix `str::ends_with`. -/
def pathEndsWith (p child : String) : Bool :=
  (splitOnSlash child).isSuffixOf (splitOnSlash p)

/-! ## Load-order resolver (`src/utils.rs`, `load_order_from_file`)

The function is modelled from the point where the load-order file has been
read into text: it takes the list of lines of the file (the UTF-8/UTF-16
decode and the per-game choice of file are I/O glue outside the model).
`data_path` and the vanilla pack paths arrive as parameters, as in the
source. -/

/-- Line filter `x.starts_with("add_working_directory \"")`. -/
def isWorkingDirLine (x : String) : Bool :=
  strStartsWith x "add_working_directory \""

/-- Line filter `x.starts_with("mod \"")`. -/
def isModLine (x : String) : Bool :=
  strStartsWith x "mod \""

/-- Payload of a working-directory line: `x[23..x.len() - 2].trim()`. -/
def workingDirOf (x : String) : String :=
  strTrim (strDropRight (strDrop x 23) 2)

/-- Payload of a mod line: `x[5..x.len() - 2].trim()`. -/
def modNameOf (x : String) : String :=
  strTrim (strDropRight (strDrop x 5) 2)

/-- The `working_paths` list: the data path followed by every declared working
directory, in declaration order.  Mirrors
`let mut working_paths = vec![data_path.to_path_buf()];
working_paths.append(&mut string.lines().filter(...).map(...).collect())`. -/
def workingPaths (dataPath : String) (lines : List String) : List String :=
  dataPath :: (lines.filter isWorkingDirLine).map workingDirOf

/-- Resolution of one mod name: `working_paths.iter()
.position(|path| path.join(&pack_name).is_file())
.map(|x| working_paths[x].join(&pack_name))`. -/
def resolveMod (fs : Fs) (wps : List String) (packName : String) : Option String :=
  (wps.find? (fun d => fs.isFile (joinPath d packName))).map (fun d => joinPath d packName)

/-- The explicitly declared part of the load order: each `mod "..."` line's
name resolved against the working paths; unresolvable names are dropped
(`filter_map`). -/
def resolvedMods (fs : Fs) (wps : List String) (lines : List String) : List String :=
  ((lines.filter isModLine).map modNameOf).filterMap (resolveMod fs wps)

/-- Movie-pack scan over one working directory.  Mirrors the body of
`for path in &paths { if !mod_paths.contains(path) && !vanilla_paths.contains(path)
{ if let Ok(pack) = Pack::read_and_merge(...) { if movie { mod_paths.push(path) } } } }`,
with `acc` the growing `mod_paths` vector.  The candidate retain
`paths.retain(|x| x.ends_with(".pack"))` acts on `PathBuf`s, so it is the
whole-component `Path::ends_with`: only a file whose final path component
is exactly `".pack"` survives it — a file such as `dir/movie.pack` is
dropped and never probed. -/
def movieScanDir (fs : Fs) (vanillaPaths : List String) (acc : List String) (wp : String) :
    List String :=
  match fs.filesIn wp with
  | none => acc
  | some files =>
    (files.filter (fun p => pathEndsWith p ".pack")).foldl
      (fun acc2 p =>
        if !acc2.contains p && !vanillaPaths.contains p && fs.isMovie p == some true then
          acc2 ++ [p]
        else
          acc2)
      acc

/-- Model of `load_order_from_file` from the point the file text is available:
resolve the declared mods, then append every auto-detected movie pack found
under any working directory (the data path included). -/
def load_order_from_file (fs : Fs) (dataPath : String) (lines : List String)
    (vanillaPaths : List String) : List String :=
  let wps := workingPaths dataPath lines
  let mods := resolvedMods fs wps lines
  wps.foldl (movieScanDir fs vanillaPaths) mods

/-! ## Translation merge engine (`src/games/mod.rs`, `prepare_translations`)

Localization rows are `[DecodedData::StringU16(key), DecodedData::StringU16(value),
DecodedData::Boolean(flag)]` triples. -/

structure LocRow where
  key : String
  value : String
  flag : Bool
deriving DecidableEq

/-- A `TranslationUnit` of the external corpus:
`(key, value_original, value_translated, needs_retranslation)`. -/
structure TrUnit where
  key : String
  value_original : String
  value_translated : String
  needs_retranslation : Bool
deriving DecidableEq

/-- Row emission for one prebuilt translation unit (the body of
`for tr in tr.translations().values()`): emit the translated value when it
is non-empty and not flagged for retranslation; else, on legacy-format
titles only, emit the original value when it is non-empty; else nothing. -/
def emitUnit (useOldMultilanguageLogic : Bool) (tr : TrUnit) : List LocRow :=
  if !(tr.value_translated == "") && !tr.needs_retranslation then
    [⟨tr.key, tr.value_translated, false⟩]
  else if useOldMultilanguageLogic && !(tr.value_original == "") then
    [⟨tr.key, tr.value_original, false⟩]
  else
    []

/-- Key-to-value lookup in a row list, first occurrence winning.  This is
the model of `vanilla_loc_data_hash`: the source builds it by inserting the
rows in reverse order into a `HashMap` (later inserts overwrite), so the
value kept for a key is the first one observed in the row list. -/
def vanillaHash (rows : List LocRow) (k : String) : Option String :=
  (rows.find? (fun r => r.key == k)).map LocRow.value

/-- The key set of a row list (as a `Finset`). -/
def keySet (rows : List LocRow) : Finset String :=
  (rows.map LocRow.key).toFinset

/-- The key set of a row list, as a deduplicated list (model of the
`HashSet<String>` collections `keys_pre_opt` / `keys_post_opt`). -/
def keysOfList (rows : List LocRow) : List String :=
  (rows.map LocRow.key).dedup

/-- Modelled from the spec: the optimize pass lives in the external
`rpfm_extensions::optimizer` crate, not in this repository.  Per the spec,
"given one reference vanilla-English table, drop accumulated entries whose
value is redundant with vanilla": a row is dropped exactly when the
reference defines its key with the same value. -/
def optimizeLoc (refRows : List LocRow) (rows : List LocRow) : List LocRow :=
  rows.filter (fun r => !(vanillaHash refRows r.key == some r.value))

/-- The `new_rows` computation: for each key lost to the optimizer, restore it from the
installed game's own loc tables when those define it
(`keys_to_fill_from_vanilla.filter_map(|key| vanilla_loc_data_hash.get(key) ...)`). -/
def newRowsFromVanilla (installedRows : List LocRow) (lost : List String) : List LocRow :=
  lost.filterMap (fun k => (vanillaHash installedRows k).map (fun v => ⟨k, v, false⟩))

/-- The `missing_entries` computation: reference-English rows with a non-empty value whose
key the installed tables either do not define or define as empty.  The
source iterates the reference rows reversed (`par_iter().rev()`), hence the
`reverse`. -/
def missingEnglishEntries (installedRows refRows : List LocRow) : List LocRow :=
  refRows.reverse.filter
    (fun e =>
      !(e.value == "") &&
      (match vanillaHash installedRows e.key with
       | some v => v == ""
       | none => true))

/-- The optimize / backfill tail of `prepare_translations`, starting from
the accumulated `loc_data` (mod rows plus the corpus fixes table).

* `useOldMultilanguageLogic` — the fixed legacy-title predicate;
* `refRows?` — the pristine reference English loc (`vanilla_english.tsv`),
  `none` when its import or decode failed;
* `installedOldRows` — the installed game's monolithic `localisation.loc`
  rows (legacy path; empty when the record is absent);
* `installedModernRows` — the concatenated rows of the installed game's
  current loc tables (modern path).

Mirrors lines 687–812 of `src/games/mod.rs`. -/
def prepareTranslationsRows (useOldMultilanguageLogic : Bool)
    (refRows? : Option (List LocRow))
    (installedOldRows installedModernRows locData : List LocRow) : List LocRow :=
  -- `keys_pre_opt`: only computed for modern titles.
  let keysPre := if useOldMultilanguageLogic then [] else keysOfList locData
  -- The optimize pass runs only when the reference loc is available and
  -- `loc_data` is non-empty.
  let afterOpt :=
    match refRows? with
    | some refRows => if locData.isEmpty then locData else optimizeLoc refRows locData
    | none => locData
  if useOldMultilanguageLogic then
    -- Legacy: append the installed monolithic loc after the optimized set.
    afterOpt ++ installedOldRows
  else
    -- Modern: restore the keys lost to the optimizer.
    let keysPost := keysOfList afterOpt
    let lost := keysPre.filter (fun k => !(keysPost.contains k))
    let withNew := afterOpt ++ newRowsFromVanilla installedModernRows lost
    -- English-only entries are prepended, and only exist when the
    -- reference loc was decoded.
    match refRows? with
    | some refRows => missingEnglishEntries installedModernRows refRows ++ withNew
    | none => withNew

/-- Modelled from the spec: the fixed legacy destination path constant
`TRANSLATED_PATH_OLD` is defined in the external `rpfm_extensions`
translator crate; only its fixedness matters here. -/
def TRANSLATED_PATH_OLD : String := "text/localisation.loc"

/-- Modelled from the spec: the fixed modern destination path constant
`TRANSLATED_PATH`, defined in the external `rpfm_extensions` translator
crate; only its fixedness (and being a single path) matters here. -/
def TRANSLATED_PATH : String := "text/db/translated_locs.loc"

/-- The final write of `prepare_translations` (lines 814–825): only when
the assembled row list is non-empty is a record inserted (replacing any
prior record) at the format-dependent fixed path.  The override pack's
record map is modelled as a function from path to optional content. -/
def writeTranslatedLoc (useOldMultilanguageLogic : Bool)
    (pack : String → Option (List LocRow)) (rows : List LocRow) :
    String → Option (List LocRow) :=
  if rows.isEmpty then
    pack
  else
    let path := if useOldMultilanguageLogic then TRANSLATED_PATH_OLD else TRANSLATED_PATH
    fun p => if p == path then some rows else pack p

/-! ## SQL patch pipeline (`src/games/mod.rs`, `prepare_sql_queries`) -/

/-- A declared script parameter `{key, default_value}`. -/
structure SQLParam where
  key : String
  default_value : String
deriving DecidableEq

/-- The declared metadata of a patch script. -/
structure SQLMetadata where
  tables_affected : List String
  tables_created : List (String × String)
  parameters : List SQLParam
deriving DecidableEq

/-- One `param_values.insert(...)` step: `match params.get(index)
{ Some v => insert(key, v), None => insert(key, default_value) }`.  The
`HashMap` is modelled as a function; an insertion overwrites the earlier
binding of the same key. -/
def bindInsert (supplied : List String) (m : String → Option String)
    (ip : Nat × SQLParam) : String → Option String :=
  fun x =>
    if x == ip.2.key then some ((supplied.get? ip.1).getD ip.2.default_value) else m x

/-- Positional parameter binding (lines 368–377): for each declared
parameter at index `i`, bind its key to the supplied value at position `i`
when one exists, else to its declared default. -/
def bindParams (declared : List SQLParam) (supplied : List String) :
    String → Option String :=
  declared.enum.foldl (bindInsert supplied) (fun _ => none)

/-- Modelled from the spec: the template substitution (`script.prepare`)
lives in the external `common_utils` crate.  A template is a token list;
substitution replaces each parameter token by its bound value and the
destination token by the override pack's file name. -/
inductive SQLToken where
  | lit (s : String)
  | par (k : String)
  | destPack
deriving DecidableEq

/-- Modelled from the spec: substitute bindings and the
destination-archive-name token into the template. -/
def substituteTemplate (m : String → Option String) (destName : String)
    (tpl : List SQLToken) : String :=
  String.join (tpl.map (fun t =>
    match t with
    | .lit s => s
    | .par k => (m k).getD ""
    | .destPack => destName))

/-- One script invocation, over an abstract store type `σ`: `parsed` is the
result of `SQLScript::from_path` (`none` = parse failure, the metadata
otherwise), and `exec` the effect of `execute_batch` on the prepared query
(the returned `Bool` is the failure flag; the store it returns models the
partial mutation that can persist even on failure). -/
structure ScriptRun (σ : Type) where
  parsed : Option SQLMetadata
  exec : σ → Bool × σ

/-- Accumulated state of the script-execution loop: the `script_failed`
flag, the declared-affected path prefixes (`edited_tables`), the declared
created tables (`new_tables`), and the working store. -/
structure RunState (σ : Type) where
  failed : Bool
  edited : List String
  created : List (String × String)
  store : σ

/-- One iteration of the script loop (lines 349–390): a parse failure sets
the flag and moves on; a parsed script first records its declared affected
prefixes (`format!("db/{}_tables/", x)`) and created tables, then executes,
OR-ing any execution failure into the flag. -/
def runScript {σ : Type} (st : RunState σ) (s : ScriptRun σ) : RunState σ :=
  match s.parsed with
  | none => { st with failed := true }
  | some meta =>
    let edited := st.edited ++ meta.tables_affected.map (fun x => "db/" ++ x ++ "_tables/")
    let created := st.created ++ meta.tables_created.map
      (fun tc => ("db/" ++ tc.1 ++ "_tables/" ++ tc.2, tc.1 ++ "_tables"))
    let fs' := s.exec st.store
    { failed := st.failed || fs'.1, edited := edited, created := created, store := fs'.2 }

/-- The script loop: strictly sequential, in caller-supplied order, every
script attempted regardless of earlier failures. -/
def runScripts {σ : Type} (scripts : List (ScriptRun σ)) (st0 : σ) : RunState σ :=
  scripts.foldl runScript { failed := false, edited := [], created := [], store := st0 }

/-- A collected table of the pipeline, identified by its container path. -/
structure DBTable where
  path : String
deriving DecidableEq

/-- The inner loop of the re-extraction pass: the first declared-affected
prefix the table's path starts with (the source `break`s after the first
match). -/
def firstEditedMatch (edited : List String) (path : String) : Option String :=
  edited.find? (fun e => strStartsWith path e)

/-- Re-extraction (lines 417–438): every collected table whose path starts
with some declared-affected prefix is pulled back and inserted into the
override pack, once, paired here with the prefix that triggered it. -/
def reextractTables (tables : List DBTable) (edited : List String) :
    List (DBTable × String) :=
  tables.filterMap (fun t => (firstEditedMatch edited t.path).map (fun e => (t, e)))

/-- The fail-at-end shape of `prepare_sql_queries`: run every script, then
re-extract, then return an error if (and only if) any script failed.  The
first component is the list of insertions performed on the override pack —
they happen before the error is returned, so they persist either way. -/
def sqlPipeline {σ : Type} (scripts : List (ScriptRun σ)) (st0 : σ)
    (tables : List DBTable) : (List (DBTable × String) × σ) × Except String Unit :=
  let r := runScripts scripts st0
  ((reextractTables tables r.edited, r.store),
   if r.failed then Except.error "Something failed when processing the SQL scripts."
   else Except.ok ())

/-! ## Low-priority rename (`rename_file_name_to_low_priority`) -/

/-- The segment-level rename: `path.split('/')`, then
`if let Some(name) = path.last_mut() { *name = format!("~{}", name); }`. -/
def renameSegments (segs : List String) : List String :=
  match segs.getLast? with
  | none => segs
  | some last => segs.dropLast ++ ["~" ++ last]

/-- Model of `rename_file_name_to_low_priority` (lines 890–898): split on `/`,
prepend `~` to the final segment, rejoin with `/`. -/
def rename_file_name_to_low_priority (path : String) : String :=
  joinSlash (renameSegments (splitOnSlash path))

/-- Rename applied to a collected table. -/
def renameTable (t : DBTable) : DBTable :=
  ⟨rename_file_name_to_low_priority t.path⟩

/-- Table collection of `prepare_sql_queries` (lines 241–264): vanilla
tables renamed to low priority, then modded, then reserved tables, then a
stable sort by container path. -/
def collectDBTables (vanilla modded reserved : List DBTable) : List DBTable :=
  ((vanilla.map renameTable) ++ modded ++ reserved).mergeSort
    (fun a b => a.path ≤ b.path)

/-! ## Transform passes and their CLI guards (`src/app/mod.rs`, `src/games/mod.rs`)

Each pass guards its whole body behind its CLI option and otherwise returns
`Ok(())` without touching any pack.  The three packs (reserved, vanilla,
modded) form the mutable state; it is abstracted as a type `σ`, and each
pass's enabled branch — per-game logic irrelevant to the guard — is passed
in as an explicit body function. -/

/-- The CLI options (`struct Cli` in `src/app/mod.rs`).  `unit_multiplier`
is an `f64` in the source; only its presence is ever inspected by the
guards modelled here, so it is carried as a `Rat`. -/
structure Cli where
  verbose : Bool
  skip_updates_check : Bool
  game : String
  load_order_file_name : String
  generated_pack_path : Option String
  enable_logging : Bool
  skip_intro_videos : Bool
  remove_trait_limit : Bool
  remove_siege_attacker : Bool
  translation_language : Option String
  unit_multiplier : Option Rat
  universal_rebalancer : Option String
  sql_script : Option (List (String × List String))
  enable_dev_ui : Bool

/-- Guard of `prepare_skip_intro_videos` (line 478): per-game body behind
`cli.skip_intro_videos`. -/
def prepare_skip_intro_videos_pass {σ : Type} (body : σ → Except String σ)
    (cli : Cli) (s : σ) : Except String σ :=
  if cli.skip_intro_videos then body s else Except.ok s

/-- Guard of `prepare_script_logging` (line 454): per-game body behind
`cli.enable_logging`. -/
def prepare_script_logging_pass {σ : Type} (body : σ → Except String σ)
    (cli : Cli) (s : σ) : Except String σ :=
  if cli.enable_logging then body s else Except.ok s

/-- Guard of `prepare_trait_limit_removal` (line 502). -/
def prepare_trait_limit_removal_pass {σ : Type} (body : σ → Except String σ)
    (cli : Cli) (s : σ) : Except String σ :=
  if cli.remove_trait_limit then body s else Except.ok s

/-- Guard of `prepare_siege_attacker_removal` (line 526). -/
def prepare_siege_attacker_removal_pass {σ : Type} (body : σ → Except String σ)
    (cli : Cli) (s : σ) : Except String σ :=
  if cli.remove_siege_attacker then body s else Except.ok s

/-- Guard of `prepare_translations` (line 574): the whole translation engine
runs only under `if let Some(language) = &cli.translation_language`. -/
def prepare_translations_pass {σ : Type} (body : String → σ → Except String σ)
    (cli : Cli) (s : σ) : Except String σ :=
  match cli.translation_language with
  | some language => body language s
  | none => Except.ok s

/-- Guard of `prepare_unit_multiplier` (line 833). -/
def prepare_unit_multiplier_pass {σ : Type} (body : Rat → σ → Except String σ)
    (cli : Cli) (s : σ) : Except String σ :=
  match cli.unit_multiplier with
  | some multiplier => body multiplier s
  | none => Except.ok s

/-- Guard of `prepare_universal_rebalancer` (lines 861–864): needs both the
option and a load-order path ending with the named mod; otherwise `Ok`. -/
def prepare_universal_rebalancer_pass {σ : Type}
    (body : String → σ → Except String σ) (cli : Cli) (mod_paths : List String)
    (s : σ) : Except String σ :=
  match cli.universal_rebalancer with
  | some mod_name =>
    match mod_paths.find? (fun x => pathEndsWith x mod_name) with
    | some mod_path => body mod_path s
    | none => Except.ok s
  | none => Except.ok s

/-- Guard of `prepare_dev_ui` (line 176). -/
def prepare_dev_ui_pass {σ : Type} (body : σ → Except String σ)
    (cli : Cli) (s : σ) : Except String σ :=
  if cli.enable_dev_ui then body s else Except.ok s

/-- Guard of `prepare_sql_queries` (line 232): the whole pipeline runs only
under `if let Some(ref scripts) = cli.sql_script`. -/
def prepare_sql_queries_pass {σ : Type}
    (body : List (String × List String) → σ → Except String σ)
    (cli : Cli) (s : σ) : Except String σ :=
  match cli.sql_script with
  | some scripts => body scripts s
  | none => Except.ok s

/-- The enabled branches of all passes, abstracted. -/
structure PassBodies (σ : Type) where
  skip_intro_videos_body : σ → Except String σ
  script_logging_body : σ → Except String σ
  trait_limit_body : σ → Except String σ
  siege_attacker_body : σ → Except String σ
  translations_body : String → σ → Except String σ
  unit_multiplier_body : Rat → σ → Except String σ
  universal_rebalancer_body : String → σ → Except String σ
  dev_ui_body : σ → Except String σ
  sql_queries_body : List (String × List String) → σ → Except String σ

/-- Model of `prepare_launch_options` (lines 132–170): the orchestrator chains the
passes in source order, aborting at the first error. -/
def prepare_launch_options {σ : Type} (bodies : PassBodies σ) (cli : Cli)
    (mod_paths : List String) (s : σ) : Except String σ := do
  let s ← prepare_skip_intro_videos_pass bodies.skip_intro_videos_body cli s
  let s ← prepare_script_logging_pass bodies.script_logging_body cli s
  let s ← prepare_trait_limit_removal_pass bodies.trait_limit_body cli s
  let s ← prepare_siege_attacker_removal_pass bodies.siege_attacker_body cli s
  let s ← prepare_translations_pass bodies.translations_body cli s
  let s ← prepare_unit_multiplier_pass bodies.unit_multiplier_body cli s
  let s ← prepare_universal_rebalancer_pass bodies.universal_rebalancer_body cli mod_paths s
  let s ← prepare_dev_ui_pass bodies.dev_ui_body cli s
  let s ← prepare_sql_queries_pass bodies.sql_queries_body cli s
  return s

/-! ## Helper lemmas -/

/-- Characterization of a successful `find?`: the found element satisfies
the predicate, and everything before it fails it. -/
theorem find?_eq_some_split {α : Type} (p : α → Bool) :
    ∀ (l : List α) (a : α), l.find? p = some a →
      p a = true ∧ ∃ l1 l2, l = l1 ++ a :: l2 ∧ ∀ x ∈ l1, p x = false := by
  intro l
  induction l with
  | nil => intro a h; simp [List.find?] at h
  | cons b t ih =>
    intro a h
    by_cases hb : p b = true
    · rw [List.find?_cons_of_pos _ hb] at h
      cases h
      exact ⟨hb, [], t, rfl, by simp⟩
    · rw [List.find?_cons_of_neg _ hb] at h
      obtain ⟨hpa, l1, l2, hl, hfail⟩ := ih a h
      refine ⟨hpa, b :: l1, l2, by simp [hl], ?_⟩
      intro x hx
      rcases List.mem_cons.mp hx with hxb | hxl
      · subst hxb; simpa using hb
      · exact hfail x hxl

/-- Appending elements that were already present does not change the
result of `find?`. -/
theorem find?_append_of_subset {α : Type} (p : α → Bool) (l extra : List α)
    (h : ∀ x ∈ extra, x ∈ l) : (l ++ extra).find? p = l.find? p := by
  rw [List.find?_append]
  cases hl : l.find? p with
  | some a => rfl
  | none =>
    have hextra : extra.find? p = none := by
      rw [List.find?_eq_none]
      intro x hx
      exact List.find?_eq_none.mp hl x (h x hx)
    rw [hextra]
    rfl

/-- A fold whose step only ever appends to the accumulator only appends. -/
theorem foldl_ext {α β : Type} (f : List α → β → List α)
    (h : ∀ acc b, ∃ e, f acc b = acc ++ e) :
    ∀ (l : List β) (acc : List α), ∃ ext, l.foldl f acc = acc ++ ext := by
  intro l
  induction l with
  | nil => intro acc; exact ⟨[], by simp⟩
  | cons b t ih =>
    intro acc
    obtain ⟨e1, he1⟩ := h acc b
    obtain ⟨e2, he2⟩ := ih (f acc b)
    refine ⟨e1 ++ e2, ?_⟩
    simp only [List.foldl_cons]
    rw [he1] at he2 ⊢
    rw [he2, List.append_assoc]

/-! ## Claim theorems -/

/-- C5: for a prebuilt translation-unit set, a unit emits its
`translated_value` row exactly when `translated_value` is non-empty and the
unit is not flagged `needs_retranslation`; only on legacy-format titles it
additionally emits an `original_value` row when no usable translation
exists and `original_value` is non-empty; units failing both conditions
contribute no row. -/
theorem emitUnit_characterization (legacy : Bool) (tr : TrUnit) :
    emitUnit legacy tr =
      (if tr.value_translated ≠ "" ∧ tr.needs_retranslation = false then
        [⟨tr.key, tr.value_translated, false⟩]
      else if legacy = true ∧ tr.value_original ≠ "" then
        [⟨tr.key, tr.value_original, false⟩]
      else
        ([] : List LocRow)) := by
  unfold emitUnit
  split_ifs with h1 h2 h3 h4 h5 h6 <;> simp_all

/-- C10: the translation engine writes a localization record into the
override archive only when the assembled row list is non-empty; when it is
empty the pack is untouched, and when it is not, exactly the record at the
format-dependent fixed path is created or replaced. -/
theorem writeTranslatedLoc_frame (legacy : Bool)
    (pack : String → Option (List LocRow)) (rows : List LocRow) :
    (rows = [] → writeTranslatedLoc legacy pack rows = pack) ∧
    (rows ≠ [] →
      writeTranslatedLoc legacy pack rows
          (if legacy then TRANSLATED_PATH_OLD else TRANSLATED_PATH) = some rows ∧
      ∀ p, p ≠ (if legacy then TRANSLATED_PATH_OLD else TRANSLATED_PATH) →
        writeTranslatedLoc legacy pack rows p = pack p) := by
  constructor
  · intro h
    subst h
    simp [writeTranslatedLoc]
  · intro h
    have hne : rows.isEmpty = false := by
      cases rows with
      | nil => exact absurd rfl h
      | cons a t => rfl
    constructor
    · simp [writeTranslatedLoc, hne]
    · intro p hp
      simp [writeTranslatedLoc, hne, hp]

/-- Witness for `writeTranslatedLoc_frame` at a concrete input. -/
theorem writeTranslatedLoc_frame_witness :
    (writeTranslatedLoc false (fun _ => none) [] = (fun _ => none)) ∧
    (writeTranslatedLoc false (fun _ => none) [⟨"k", "v", false⟩] TRANSLATED_PATH
      = some [⟨"k", "v", false⟩]) := by
  refine ⟨(writeTranslatedLoc_frame false (fun _ => none) []).1 rfl, ?_⟩
  have h := ((writeTranslatedLoc_frame false (fun _ => none) [⟨"k", "v", false⟩]).2
    (by simp)).1
  simpa using h

/-- C9: every transform pass whose CLI option is disabled (boolean flag
false, or optional value absent) returns `Ok` and leaves the pack state —
reserved, vanilla and modded packs — completely unchanged, whatever its
enabled branch would do; with every option disabled the whole orchestrator
is the identity. -/
theorem disabled_passes_are_identity {σ : Type} (bodies : PassBodies σ)
    (cli : Cli) (mod_paths : List String) (s : σ) :
    (cli.skip_intro_videos = false →
      prepare_skip_intro_videos_pass bodies.skip_intro_videos_body cli s = Except.ok s) ∧
    (cli.enable_logging = false →
      prepare_script_logging_pass bodies.script_logging_body cli s = Except.ok s) ∧
    (cli.remove_trait_limit = false →
      prepare_trait_limit_removal_pass bodies.trait_limit_body cli s = Except.ok s) ∧
    (cli.remove_siege_attacker = false →
      prepare_siege_attacker_removal_pass bodies.siege_attacker_body cli s = Except.ok s) ∧
    (cli.translation_language = none →
      prepare_translations_pass bodies.translations_body cli s = Except.ok s) ∧
    (cli.unit_multiplier = none →
      prepare_unit_multiplier_pass bodies.unit_multiplier_body cli s = Except.ok s) ∧
    (cli.universal_rebalancer = none →
      prepare_universal_rebalancer_pass bodies.universal_rebalancer_body cli mod_paths s
        = Except.ok s) ∧
    (cli.enable_dev_ui = false →
      prepare_dev_ui_pass bodies.dev_ui_body cli s = Except.ok s) ∧
    (cli.sql_script = none →
      prepare_sql_queries_pass bodies.sql_queries_body cli s = Except.ok s) ∧
    (cli.skip_intro_videos = false → cli.enable_logging = false →
      cli.remove_trait_limit = false → cli.remove_siege_attacker = false →
      cli.translation_language = none → cli.unit_multiplier = none →
      cli.universal_rebalancer = none → cli.enable_dev_ui = false →
      cli.sql_script = none →
      prepare_launch_options bodies cli mod_paths s = Except.ok s) := by
  refine ⟨?_, ?_, ?_, ?_, ?_, ?_, ?_, ?_, ?_, ?_⟩
  · intro h; simp [prepare_skip_intro_videos_pass, h]
  · intro h; simp [prepare_script_logging_pass, h]
  · intro h; simp [prepare_trait_limit_removal_pass, h]
  · intro h; simp [prepare_siege_attacker_removal_pass, h]
  · intro h; simp [prepare_translations_pass, h]
  · intro h; simp [prepare_unit_multiplier_pass, h]
  · intro h; simp [prepare_universal_rebalancer_pass, h]
  · intro h; simp [prepare_dev_ui_pass, h]
  · intro h; simp [prepare_sql_queries_pass, h]
  · intro h1 h2 h3 h4 h5 h6 h7 h8 h9
    simp [prepare_launch_options, prepare_skip_intro_videos_pass,
      prepare_script_logging_pass, prepare_trait_limit_removal_pass,
      prepare_siege_attacker_removal_pass, prepare_translations_pass,
      prepare_unit_multiplier_pass, prepare_universal_rebalancer_pass,
      prepare_dev_ui_pass, prepare_sql_queries_pass,
      h1, h2, h3, h4, h5, h6, h7, h8, h9]
    rfl

/-- A CLI value with every transform option disabled. -/
def cliAllOff : Cli :=
  { verbose := false
    skip_updates_check := false
    game := "warhammer_3"
    load_order_file_name := "used_mods.txt"
    generated_pack_path := none
    enable_logging := false
    skip_intro_videos := false
    remove_trait_limit := false
    remove_siege_attacker := false
    translation_language := none
    unit_multiplier := none
    universal_rebalancer := none
    sql_script := none
    enable_dev_ui := false }

/-- Pass bodies over `Nat` that visibly mutate the state, for the witness. -/
def demoBodies : PassBodies Nat :=
  { skip_intro_videos_body := fun s => Except.ok (s + 1)
    script_logging_body := fun s => Except.ok (s + 1)
    trait_limit_body := fun s => Except.ok (s + 1)
    siege_attacker_body := fun s => Except.ok (s + 1)
    translations_body := fun _ s => Except.ok (s + 1)
    unit_multiplier_body := fun _ s => Except.ok (s + 1)
    universal_rebalancer_body := fun _ s => Except.ok (s + 1)
    dev_ui_body := fun s => Except.ok (s + 1)
    sql_queries_body := fun _ s => Except.ok (s + 1) }

/-- Witness for `disabled_passes_are_identity` at a concrete input. -/
theorem disabled_passes_are_identity_witness :
    prepare_dev_ui_pass demoBodies.dev_ui_body cliAllOff 0 = Except.ok 0 ∧
    prepare_sql_queries_pass demoBodies.sql_queries_body cliAllOff 0 = Except.ok 0 ∧
    prepare_translations_pass demoBodies.translations_body cliAllOff 0 = Except.ok 0 ∧
    prepare_launch_options demoBodies cliAllOff [] 0 = Except.ok 0 := by
  have h := disabled_passes_are_identity demoBodies cliAllOff [] 0
  exact ⟨h.2.2.2.2.2.2.2.1 rfl, h.2.2.2.2.2.2.2.2.1 rfl, h.2.2.2.2.1 rfl,
    h.2.2.2.2.2.2.2.2.2 rfl rfl rfl rfl rfl rfl rfl rfl rfl⟩

/-- Elements of an `enumFrom` are elements of the underlying list. -/
theorem snd_mem_of_mem_enumFrom {α : Type} :
    ∀ (l : List α) (n : Nat) (ip : Nat × α), ip ∈ l.enumFrom n → ip.2 ∈ l := by
  intro l
  induction l with
  | nil => intro n ip h; simp [List.enumFrom] at h
  | cons a t ih =>
    intro n ip h
    rcases List.mem_cons.mp h with h0 | h1
    · subst h0; simp
    · exact List.mem_cons.mpr (Or.inr (ih (n + 1) ip h1))

/-- Folding `bindInsert` over entries none of which mention `x` leaves the
binding of `x` unchanged. -/
theorem bindFold_untouched (supplied : List String) :
    ∀ (l : List (Nat × SQLParam)) (m : String → Option String) (x : String),
      (∀ ip ∈ l, x ≠ ip.2.key) →
      (l.foldl (bindInsert supplied) m) x = m x := by
  intro l
  induction l with
  | nil => intro m x _; rfl
  | cons ip t ih =>
    intro m x h
    have ht : ∀ jp ∈ t, x ≠ jp.2.key := fun jp hjp => h jp (List.mem_cons.mpr (Or.inr hjp))
    have hx : x ≠ ip.2.key := h ip (List.mem_cons.mpr (Or.inl rfl))
    rw [List.foldl_cons, ih _ x ht]
    simp [bindInsert, hx]

/-- The binding produced for the parameter declared at index `i`, for any
start offset of the enumeration. -/
theorem bindFold_get (supplied : List String) :
    ∀ (declared : List SQLParam) (n : Nat) (m : String → Option String),
      (declared.map SQLParam.key).Nodup →
      ∀ (i : Nat) (hi : i < declared.length),
        ((declared.enumFrom n).foldl (bindInsert supplied) m) declared[i].key
          = some ((supplied.get? (n + i)).getD declared[i].default_value) := by
  intro declared
  induction declared with
  | nil => intro n m _ i hi; exact absurd hi (by simp)
  | cons p rest ih =>
    intro n m hnd i hi
    have hstep : (p :: rest).enumFrom n = (n, p) :: rest.enumFrom (n + 1) := rfl
    rw [hstep, List.foldl_cons]
    have hnd' : (rest.map SQLParam.key).Nodup := (List.nodup_cons.mp hnd).2
    have hkey : p.key ∉ rest.map SQLParam.key := (List.nodup_cons.mp hnd).1
    cases i with
    | zero =>
      simp only [List.getElem_cons_zero]
      have huntouched : ∀ ip ∈ rest.enumFrom (n + 1), p.key ≠ ip.2.key := by
        intro ip hip hcontra
        exact hkey (hcontra ▸ List.mem_map.mpr
          ⟨ip.2, snd_mem_of_mem_enumFrom rest (n + 1) ip hip, rfl⟩)
      rw [bindFold_untouched supplied _ _ _ huntouched]
      simp [bindInsert]
    | succ j =>
      have hj : j < rest.length := by simpa using Nat.lt_of_succ_lt_succ hi
      simp only [List.getElem_cons_succ]
      have := ih (n + 1) (bindInsert supplied m (n, p)) hnd' j hj
      rw [show n + 1 + j = n + (j + 1) by omega] at this
      exact this

/-- C7: for every script with declared parameters and every supplied
positional parameter list, parameter `i` is bound to the supplied value at
position `i` when one exists and to its declared default otherwise, and
that bound value is what gets substituted for the parameter's token in the
template. -/
theorem bindParams_positional (declared : List SQLParam) (supplied : List String)
    (hnd : (declared.map SQLParam.key).Nodup) :
    ∀ (i : Nat) (hi : i < declared.length),
      bindParams declared supplied declared[i].key
        = some ((supplied.get? i).getD declared[i].default_value) ∧
      ∀ destName, substituteTemplate (bindParams declared supplied) destName
          [SQLToken.par declared[i].key]
        = (supplied.get? i).getD declared[i].default_value := by
  intro i hi
  have hbind := bindFold_get supplied declared 0 (fun _ => none) hnd i hi
  rw [Nat.zero_add] at hbind
  have hbind' : bindParams declared supplied declared[i].key
      = some ((supplied.get? i).getD declared[i].default_value) := hbind
  refine ⟨hbind', ?_⟩
  intro destName
  simp [substituteTemplate, String.join, hbind']

/-- Witness for `bindParams_positional`: a script declaring parameter
`{key: "mult", default: "1.0"}` invoked with no parameters binds and
substitutes `"1.0"`. -/
theorem bindParams_positional_witness :
    bindParams [⟨"mult", "1.0"⟩] [] "mult" = some "1.0" ∧
    substituteTemplate (bindParams [⟨"mult", "1.0"⟩] []) "out.pack"
      [SQLToken.par "mult"] = "1.0" := by
  have h := bindParams_positional [⟨"mult", "1.0"⟩] [] (by simp) 0 (by simp)
  exact ⟨h.1, h.2 "out.pack"⟩

/-- The `script_failed` flag is only ever OR-ed into: running the loop from
a pre-set flag yields the same metadata, created tables and store as
running it from a clear flag, with the flag OR-ed on top. -/
theorem foldl_runScript_failed {σ : Type} (scripts : List (ScriptRun σ)) :
    ∀ (b : Bool) (e : List String) (c : List (String × String)) (st : σ),
      scripts.foldl runScript ⟨b, e, c, st⟩ =
        { scripts.foldl runScript ⟨false, e, c, st⟩ with
            failed := b || (scripts.foldl runScript ⟨false, e, c, st⟩).failed } := by
  induction scripts with
  | nil => intro b e c st; simp
  | cons s rest ih =>
    intro b e c st
    rw [List.foldl_cons, List.foldl_cons]
    cases hp : s.parsed with
    | none =>
      have h1 : runScript ⟨b, e, c, st⟩ s = ⟨true, e, c, st⟩ := by
        simp [runScript, hp]
      have h2 : runScript ⟨false, e, c, st⟩ s = ⟨true, e, c, st⟩ := by
        simp [runScript, hp]
      rw [h1, h2, ih true e c st]
      simp
    | some meta =>
      have h1 : runScript ⟨b, e, c, st⟩ s =
          ⟨b || (s.exec st).1, e ++ meta.tables_affected.map (fun x => "db/" ++ x ++ "_tables/"),
           c ++ meta.tables_created.map
             (fun tc => ("db/" ++ tc.1 ++ "_tables/" ++ tc.2, tc.1 ++ "_tables")),
           (s.exec st).2⟩ := by
        simp [runScript, hp]
      have h2 : runScript ⟨false, e, c, st⟩ s =
          ⟨(s.exec st).1, e ++ meta.tables_affected.map (fun x => "db/" ++ x ++ "_tables/"),
           c ++ meta.tables_created.map
             (fun tc => ("db/" ++ tc.1 ++ "_tables/" ++ tc.2, tc.1 ++ "_tables")),
           (s.exec st).2⟩ := by
        simp [runScript, hp]
      rw [h1, h2, ih (b || (s.exec st).1), ih ((s.exec st).1)]
      simp [Bool.or_assoc]

/-- C3: a parse failure (or an execution failure) of one script does not
prevent the remaining scripts from being attempted — their metadata is
still recorded and they still run against the store, which keeps any
partial mutation — and the pipeline call returns its error after all
scripts and the re-extraction, exactly when at least one failure was
recorded. -/
theorem sql_pipeline_fail_at_end {σ : Type} :
    (∀ (s : ScriptRun σ) (rest : List (ScriptRun σ)) (st0 : σ),
      s.parsed = none →
      runScripts (s :: rest) st0 = { runScripts rest st0 with failed := true }) ∧
    (∀ (s : ScriptRun σ) (rest : List (ScriptRun σ)) (st0 : σ) (meta : SQLMetadata),
      s.parsed = some meta →
      runScripts (s :: rest) st0 =
        { rest.foldl runScript
            ⟨false,
             meta.tables_affected.map (fun x => "db/" ++ x ++ "_tables/"),
             meta.tables_created.map
               (fun tc => ("db/" ++ tc.1 ++ "_tables/" ++ tc.2, tc.1 ++ "_tables")),
             (s.exec st0).2⟩ with
          failed := (s.exec st0).1 ||
            (rest.foldl runScript
              ⟨false,
               meta.tables_affected.map (fun x => "db/" ++ x ++ "_tables/"),
               meta.tables_created.map
                 (fun tc => ("db/" ++ tc.1 ++ "_tables/" ++ tc.2, tc.1 ++ "_tables")),
               (s.exec st0).2⟩).failed }) ∧
    (∀ (scripts : List (ScriptRun σ)) (st0 : σ) (tables : List DBTable),
      (sqlPipeline scripts st0 tables).1.1 =
        reextractTables tables (runScripts scripts st0).edited ∧
      ((sqlPipeline scripts st0 tables).2 =
          Except.error "Something failed when processing the SQL scripts."
        ↔ (runScripts scripts st0).failed = true)) := by
  refine ⟨?_, ?_, ?_⟩
  · intro s rest st0 h
    unfold runScripts
    rw [List.foldl_cons]
    have hstep : runScript ⟨false, [], [], st0⟩ s = ⟨true, [], [], st0⟩ := by
      simp [runScript, h]
    rw [hstep, foldl_runScript_failed rest true [] [] st0]
    simp
  · intro s rest st0 meta h
    unfold runScripts
    rw [List.foldl_cons]
    have hstep : runScript ⟨false, [], [], st0⟩ s =
        ⟨(s.exec st0).1,
         meta.tables_affected.map (fun x => "db/" ++ x ++ "_tables/"),
         meta.tables_created.map
           (fun tc => ("db/" ++ tc.1 ++ "_tables/" ++ tc.2, tc.1 ++ "_tables")),
         (s.exec st0).2⟩ := by
      simp [runScript, h]
    rw [hstep, foldl_runScript_failed]
  · intro scripts st0 tables
    refine ⟨rfl, ?_⟩
    cases hf : (runScripts scripts st0).failed with
    | true => simp [sqlPipeline, hf]
    | false => simp [sqlPipeline, hf]

/-- A script whose metadata block fails to parse. -/
def demoBadScript : ScriptRun Nat := ⟨none, fun n => (false, n)⟩

/-- A script that parses, declares `foo` affected, and executes
successfully (incrementing the demo store). -/
def demoGoodScript : ScriptRun Nat :=
  ⟨some ⟨["foo"], [], []⟩, fun n => (false, n + 1)⟩

/-- A collected table living under the declared-affected prefix. -/
def demoTables : List DBTable := [⟨"db/foo_tables/data__"⟩]

/-- Witness for `sql_pipeline_fail_at_end`: script 1 fails to parse,
script 2 succeeds; script 2's declared-affected table is still
re-extracted, its store effect persists, and the call still errors. -/
theorem sql_pipeline_fail_at_end_witness :
    runScripts [demoBadScript, demoGoodScript] 0 =
      { runScripts [demoGoodScript] 0 with failed := true } ∧
    (sqlPipeline [demoBadScript, demoGoodScript] 0 demoTables).1.1 =
      [(⟨"db/foo_tables/data__"⟩, "db/foo_tables/")] ∧
    (sqlPipeline [demoBadScript, demoGoodScript] 0 demoTables).1.2 = 1 ∧
    (sqlPipeline [demoBadScript, demoGoodScript] 0 demoTables).2 =
      Except.error "Something failed when processing the SQL scripts." := by
  have h := sql_pipeline_fail_at_end (σ := Nat)
  refine ⟨h.1 demoBadScript [demoGoodScript] 0 rfl, ?_, rfl, ?_⟩
  · have he : (runScripts [demoBadScript, demoGoodScript] 0).edited
        = ["db/foo_tables/"] := rfl
    rw [(h.2.2 [demoBadScript, demoGoodScript] 0 demoTables).1, he]
    decide
  · exact (h.2.2 [demoBadScript, demoGoodScript] 0 demoTables).2.mpr rfl

/-- C6: during re-extraction each collected table is pulled back and
inserted at most once — exactly once when some declared-affected prefix
matches its path — using the first matching prefix in declaration order,
and appending duplicate prefixes (several scripts declaring the same
table) never causes a second extraction. -/
theorem reextract_once_first_prefix :
    (∀ (tables : List DBTable) (edited : List String) (t : DBTable),
      reextractTables (t :: tables) edited =
        (match firstEditedMatch edited t.path with
         | some e => [(t, e)]
         | none => []) ++ reextractTables tables edited) ∧
    (∀ (edited : List String) (t : DBTable) (e : String),
      firstEditedMatch edited t.path = some e →
        strStartsWith t.path e = true ∧
        ∃ pre suf, edited = pre ++ e :: suf ∧
          ∀ q ∈ pre, strStartsWith t.path q = false) ∧
    (∀ (tables : List DBTable) (edited extra : List String),
      (∀ x ∈ extra, x ∈ edited) →
      reextractTables tables (edited ++ extra) = reextractTables tables edited) := by
  refine ⟨?_, ?_, ?_⟩
  · intro tables edited t
    simp only [reextractTables, List.filterMap_cons]
    cases hm : firstEditedMatch edited t.path with
    | none => simp
    | some e => simp
  · intro edited t e h
    exact find?_eq_some_split (fun q => strStartsWith t.path q) edited e h
  · intro tables edited extra h
    induction tables with
    | nil => rfl
    | cons t rest ih =>
      simp only [reextractTables, List.filterMap_cons] at ih ⊢
      rw [show firstEditedMatch (edited ++ extra) t.path = firstEditedMatch edited t.path
            from find?_append_of_subset (fun q => strStartsWith t.path q) edited extra h,
          ih]

/-- Witness for `reextract_once_first_prefix` at concrete inputs: the first
matching prefix is used, and a duplicated prefix adds no extraction. -/
theorem reextract_once_first_prefix_witness :
    (strStartsWith "db/foo_tables/x" "db/foo_tables/" = true ∧
      ∃ pre suf, ["db/bar_tables/", "db/foo_tables/"] = pre ++ "db/foo_tables/" :: suf ∧
        ∀ q ∈ pre, strStartsWith "db/foo_tables/x" q = false) ∧
    reextractTables [⟨"db/foo_tables/x"⟩] (["db/foo_tables/"] ++ ["db/foo_tables/"]) =
      reextractTables [⟨"db/foo_tables/x"⟩] ["db/foo_tables/"] := by
  have h := reextract_once_first_prefix
  exact ⟨h.2.1 ["db/bar_tables/", "db/foo_tables/"] ⟨"db/foo_tables/x"⟩ "db/foo_tables/"
      (by decide),
    h.2.2 [⟨"db/foo_tables/x"⟩] ["db/foo_tables/"] ["db/foo_tables/"] (by decide)⟩

/-- C8: the low-priority rename applied to every base-archive-sourced table
before the stable sort prepends the `~` marker to the final path segment
only, leaving every other segment unchanged; the renamed final segment
always differs from any name that does not itself start with `~`, and the
renamed tables are what enter the sorted collection. -/
theorem rename_low_priority_marks_last_segment :
    (∀ (segs : List String) (h : segs ≠ []),
      renameSegments segs = segs.dropLast ++ ["~" ++ segs.getLast h]) ∧
    (∀ (segs : List String) (h : segs ≠ []),
      (renameSegments segs).getLast? = some ("~" ++ segs.getLast h) ∧
      ∀ nm : String, strStartsWith nm "~" = false → "~" ++ segs.getLast h ≠ nm) ∧
    (∀ (vanilla modded reserved : List DBTable) (t : DBTable), t ∈ vanilla →
      renameTable t ∈ collectDBTables vanilla modded reserved) := by
  have hshape : ∀ (segs : List String) (h : segs ≠ []),
      renameSegments segs = segs.dropLast ++ ["~" ++ segs.getLast h] := by
    intro segs h
    simp [renameSegments, List.getLast?_eq_getLast segs h]
  refine ⟨hshape, ?_, ?_⟩
  · intro segs h
    constructor
    · rw [hshape segs h]
      simp
    · intro nm hnm heq
      rw [← heq] at hnm
      simp [strStartsWith, String.data_append, List.isPrefixOf] at hnm
  · intro vanilla modded reserved t ht
    unfold collectDBTables
    rw [List.mem_mergeSort]
    exact List.mem_append.mpr (Or.inl (List.mem_append.mpr
      (Or.inl (List.mem_map.mpr ⟨t, ht, rfl⟩))))

/-- Witness for `rename_low_priority_marks_last_segment` at concrete
inputs. -/
theorem rename_low_priority_marks_last_segment_witness :
    renameSegments ["db", "foo_tables", "data"] = ["db", "foo_tables", "~data"] ∧
    renameTable ⟨"db/foo_tables/data"⟩ ∈
      collectDBTables [⟨"db/foo_tables/data"⟩] [] [] := by
  have h := rename_low_priority_marks_last_segment
  constructor
  · rw [h.1 ["db", "foo_tables", "data"] (by decide)]
    decide
  · exact h.2.2 [⟨"db/foo_tables/data"⟩] [] [] ⟨"db/foo_tables/data"⟩ (by simp)

/-- A filesystem for the two-mod scenario: `a.pack` and `b.pack` exist only
under the declared directory `dir`, which also holds two undeclared movie
packs — `dir/movie.pack`, which the component-wise `".pack"` retain drops,
and a file literally named `.pack`, which it keeps; the data directory is
empty. -/
def fsC1 : Fs :=
  { isFile := fun p => p == "dir/a.pack" || p == "dir/b.pack"
    filesIn := fun d =>
      if d == "dir" then
        some ["dir/a.pack", "dir/b.pack", "dir/movie.pack", "dir/.pack"]
      else if d == "data" then some [] else none
    isMovie := fun p =>
      if p == "dir/movie.pack" || p == "dir/.pack" then some true else none }

/-- The load-order file of the scenario. -/
def c1Lines : List String :=
  ["add_working_directory \"dir\";", "mod \"a.pack\";", "mod \"b.pack\";"]

/-- C1 counterexample: for the scenario load order the resolver returns
`[dir/a.pack, dir/b.pack, dir/.pack]` — the implicit data directory is not
the first element of the returned list (it is not an element at all), and
the movie pack `dir/movie.pack` is not auto-appended either, because the
whole-component `Path::ends_with(".pack")` retain drops it before the
probe. -/
theorem load_order_head_not_data_path :
    load_order_from_file fsC1 "data" c1Lines [] =
      ["dir/a.pack", "dir/b.pack", "dir/.pack"] ∧
    (load_order_from_file fsC1 "data" c1Lines []).head? ≠ some "data" ∧
    "data" ∉ load_order_from_file fsC1 "data" c1Lines [] ∧
    "dir/movie.pack" ∉ load_order_from_file fsC1 "data" c1Lines [] := by
  decide

/-- C1 amended: the resolver returns the declared mods resolved in
declaration order followed by the auto-detected movie archives; the data
directory is the head of the working-directory list used for resolution,
but is not itself an element of the output. -/
theorem load_order_shape (fs : Fs) (dataPath : String)
    (lines vanillaPaths : List String) :
    (workingPaths dataPath lines).head? = some dataPath ∧
    ∃ movies, load_order_from_file fs dataPath lines vanillaPaths =
      resolvedMods fs (workingPaths dataPath lines) lines ++ movies := by
  refine ⟨rfl, ?_⟩
  unfold load_order_from_file
  apply foldl_ext
  intro acc wp
  unfold movieScanDir
  cases hf : fs.filesIn wp with
  | none => exact ⟨[], by simp⟩
  | some files =>
    apply foldl_ext
    intro acc2 p
    dsimp only
    split
    · exact ⟨[p], rfl⟩
    · exact ⟨[], by simp⟩

/-- A filesystem where `a.pack` exists both in the data directory and in
the declared working directory. -/
def fsC4 : Fs :=
  { isFile := fun p => p == "data/a.pack" || p == "dir/a.pack"
    filesIn := fun _ => some []
    isMovie := fun _ => none }

/-- C4 counterexample: a mod name contained in both a declared working
directory and the data directory resolves to the *data* directory's file,
not the declared directory's — the data directory is considered first, not
last. -/
theorem resolve_prefers_data_dir :
    resolveMod fsC4 (workingPaths "data" ["add_working_directory \"dir\";"]) "a.pack"
      = some "data/a.pack" ∧
    resolveMod fsC4 (workingPaths "data" ["add_working_directory \"dir\";"]) "a.pack"
      ≠ some "dir/a.pack" := by
  decide

/-- C4 amended: each declared mod name resolves against the first working
directory containing a file of that name, the directories being taken in
declaration order with the game's data directory considered *first*; a
name present in the data directory resolves there, and only names absent
from it fall through to the declared directories. -/
theorem resolve_order_data_first (fs : Fs) (dataPath : String)
    (lines : List String) (name : String) :
    (fs.isFile (joinPath dataPath name) = true →
      resolveMod fs (workingPaths dataPath lines) name
        = some (joinPath dataPath name)) ∧
    (fs.isFile (joinPath dataPath name) = false →
      resolveMod fs (workingPaths dataPath lines) name =
        resolveMod fs ((lines.filter isWorkingDirLine).map workingDirOf) name) ∧
    (∀ (wps : List String) (e : String), resolveMod fs wps name = some e →
      ∃ d pre suf, wps = pre ++ d :: suf ∧ e = joinPath d name ∧
        fs.isFile (joinPath d name) = true ∧
        ∀ q ∈ pre, fs.isFile (joinPath q name) = false) := by
  refine ⟨?_, ?_, ?_⟩
  · intro h
    unfold resolveMod workingPaths
    have hfind : List.find? (fun d => fs.isFile (joinPath d name))
        (dataPath :: (lines.filter isWorkingDirLine).map workingDirOf)
        = some dataPath :=
      List.find?_cons_of_pos _ h
    rw [hfind]
    rfl
  · intro h
    unfold resolveMod workingPaths
    have hfind : List.find? (fun d => fs.isFile (joinPath d name))
        (dataPath :: (lines.filter isWorkingDirLine).map workingDirOf)
        = List.find? (fun d => fs.isFile (joinPath d name))
            ((lines.filter isWorkingDirLine).map workingDirOf) :=
      List.find?_cons_of_neg _ (by simp [h])
    rw [hfind]
  · intro wps e h
    unfold resolveMod at h
    cases hf : wps.find? (fun d => fs.isFile (joinPath d name)) with
    | none => rw [hf] at h; simp at h
    | some d =>
      rw [hf] at h
      simp only [Option.map, Option.some.injEq] at h
      obtain ⟨hpd, pre, suf, hsplit, hfail⟩ :=
        find?_eq_some_split (fun q => fs.isFile (joinPath q name)) wps d hf
      exact ⟨d, pre, suf, hsplit, h.symm, hpd, hfail⟩

/-- Witness for `resolve_order_data_first` at concrete inputs. -/
theorem resolve_order_data_first_witness :
    resolveMod fsC4 (workingPaths "data" ["add_working_directory \"dir\";"]) "a.pack"
      = some (joinPath "data" "a.pack") ∧
    resolveMod fsC1 (workingPaths "data" c1Lines) "a.pack"
      = resolveMod fsC1 ((c1Lines.filter isWorkingDirLine).map workingDirOf) "a.pack" ∧
    (∃ d pre suf,
      workingPaths "data" ["add_working_directory \"dir\";"] = pre ++ d :: suf ∧
      ("data/a.pack" : String) = joinPath d "a.pack" ∧
      fsC4.isFile (joinPath d "a.pack") = true ∧
      ∀ q ∈ pre, fsC4.isFile (joinPath q "a.pack") = false) := by
  refine ⟨?_, ?_, ?_⟩
  · exact (resolve_order_data_first fsC4 "data" ["add_working_directory \"dir\";"]
      "a.pack").1 (by decide)
  · exact (resolve_order_data_first fsC1 "data" c1Lines "a.pack").2.1 (by decide)
  · exact (resolve_order_data_first fsC4 "data" ["add_working_directory \"dir\";"]
      "a.pack").2.2 _ "data/a.pack" (by decide)

/-- Unfolding of the modern-format path of the backfill when the reference
English loc is available. -/
theorem prepareTranslationsRows_modern (refRows io im ld : List LocRow) :
    prepareTranslationsRows false (some refRows) io im ld =
      missingEnglishEntries im refRows ++
      ((if ld.isEmpty then ld else optimizeLoc refRows ld) ++
       newRowsFromVanilla im
         ((keysOfList ld).filter
           (fun k =>
             !((keysOfList (if ld.isEmpty then ld else optimizeLoc refRows ld)).contains
               k)))) := by
  rfl

/-- C2 counterexample: the key sets before the optimize pass and after the
vanilla backfill differ.  Modern path: an English-reference-only entry
(`k2`) is prepended by the backfill although no accumulated row ever had
that key.  Legacy path: a key (`k1`) optimized away and absent from the
installed monolithic table is not restored at all. -/
theorem translation_keyset_equality_fails :
    keySet (prepareTranslationsRows false (some [⟨"k2", "x", false⟩]) [] []
        [⟨"k1", "a", false⟩]) ≠ keySet [⟨"k1", "a", false⟩] ∧
    keySet (prepareTranslationsRows true (some [⟨"k1", "a", false⟩]) [] []
        [⟨"k1", "a", false⟩]) ≠ keySet [⟨"k1", "a", false⟩] := by
  decide

/-- Membership in a row list's key set. -/
theorem mem_keySet_iff (rows : List LocRow) (k : String) :
    k ∈ keySet rows ↔ ∃ r ∈ rows, r.key = k := by
  simp [keySet, List.mem_toFinset, List.mem_map]

/-- Membership in the deduplicated key list. -/
theorem mem_keysOfList_iff (rows : List LocRow) (k : String) :
    k ∈ keysOfList rows ↔ ∃ r ∈ rows, r.key = k := by
  simp [keysOfList, List.mem_dedup, List.mem_map]

/-- A successful lookup comes from a row of the list. -/
theorem vanillaHash_eq_some (rows : List LocRow) (k v : String)
    (h : vanillaHash rows k = some v) : ∃ r ∈ rows, r.key = k ∧ r.value = v := by
  unfold vanillaHash at h
  cases hf : rows.find? (fun r => r.key == k) with
  | none => rw [hf] at h; simp at h
  | some r =>
    rw [hf] at h
    simp only [Option.map, Option.some.injEq] at h
    have hr := List.find?_some hf
    exact ⟨r, List.mem_of_find?_eq_some hf, by simpa using hr, h⟩

/-- A key lost to the optimizer is restored by the modern backfill: from
the installed tables when they define it, else from the reference English
rows (whose first row with that key necessarily has the dropped, non-empty
value). -/
theorem lost_key_restored (refRows im ld : List LocRow) (k : String)
    (hpre : k ∈ keysOfList ld)
    (hpost : k ∉ keysOfList (optimizeLoc refRows ld))
    (hval : ∀ r ∈ ld, r.value ≠ "") :
    (∀ v, vanillaHash im k = some v →
      (⟨k, v, false⟩ : LocRow) ∈ newRowsFromVanilla im
        ((keysOfList ld).filter
          (fun k2 => !((keysOfList (optimizeLoc refRows ld)).contains k2)))) ∧
    (vanillaHash im k = none →
      ∃ e ∈ refRows, e.key = k ∧ e.value ≠ "" ∧
        e ∈ missingEnglishEntries im refRows) := by
  have hlost : k ∈ (keysOfList ld).filter
      (fun k2 => !((keysOfList (optimizeLoc refRows ld)).contains k2)) := by
    rw [List.mem_filter]
    refine ⟨hpre, ?_⟩
    simpa using hpost
  constructor
  · intro v hv
    unfold newRowsFromVanilla
    rw [List.mem_filterMap]
    exact ⟨k, hlost, by rw [hv]; rfl⟩
  · intro hnone
    -- Take a row of `ld` with key `k`; it must have been dropped.
    obtain ⟨r, hr, hrk⟩ := (mem_keysOfList_iff ld k).mp hpre
    have hrdrop : r ∉ optimizeLoc refRows ld := by
      intro hmem
      exact hpost ((mem_keysOfList_iff _ k).mpr ⟨r, hmem, hrk⟩)
    have hpred : ¬(!(vanillaHash refRows r.key == some r.value)) = true := by
      intro hp
      exact hrdrop (List.mem_filter.mpr ⟨hr, hp⟩)
    have hhash : vanillaHash refRows k = some r.value := by
      rw [← hrk]
      simpa using hpred
    -- The first reference row with key `k` carries the dropped value.
    unfold vanillaHash at hhash
    cases hf : refRows.find? (fun e => e.key == k) with
    | none => rw [hf] at hhash; simp at hhash
    | some e0 =>
      rw [hf] at hhash
      simp only [Option.map, Option.some.injEq] at hhash
      have he0k : e0.key = k := by simpa using List.find?_some hf
      have he0mem : e0 ∈ refRows := List.mem_of_find?_eq_some hf
      have he0val : e0.value ≠ "" := by
        rw [hhash]
        exact hval r hr
      refine ⟨e0, he0mem, he0k, he0val, ?_⟩
      unfold missingEnglishEntries
      rw [List.mem_filter, List.mem_reverse]
      refine ⟨he0mem, ?_⟩
      rw [he0k, hnone]
      simpa using he0val

/-- C2 amended: key-set equality does not survive the backfill, but on the
modern path with the reference English loc available, and with every
accumulated row carrying a non-empty value, no key is lost: every key
present before the optimize pass is present after the backfill, and each
key lost by optimization is restored preferring the installed game's own
tables, falling back to the reference English rows exactly when the
installed tables do not define the key. -/
theorem translation_backfill_restores_lost_keys
    (refRows installedOldRows installedModernRows locData : List LocRow)
    (hval : ∀ r ∈ locData, r.value ≠ "") :
    keySet locData ⊆
      keySet (prepareTranslationsRows false (some refRows) installedOldRows
        installedModernRows locData) ∧
    ∀ k, k ∈ keysOfList locData →
      k ∉ keysOfList (optimizeLoc refRows locData) →
      (∀ v, vanillaHash installedModernRows k = some v →
        (⟨k, v, false⟩ : LocRow) ∈ prepareTranslationsRows false (some refRows)
          installedOldRows installedModernRows locData) ∧
      (vanillaHash installedModernRows k = none →
        ∃ e ∈ refRows, e.key = k ∧
          e ∈ prepareTranslationsRows false (some refRows)
            installedOldRows installedModernRows locData) := by
  constructor
  · intro k hk
    obtain ⟨r, hr, hrk⟩ := (mem_keySet_iff locData k).mp hk
    have hne : locData.isEmpty = false := by
      cases locData with
      | nil => cases hr
      | cons a t => rfl
    have hif : (if locData.isEmpty then locData else optimizeLoc refRows locData)
        = optimizeLoc refRows locData := by
      rw [hne]
      rfl
    rw [prepareTranslationsRows_modern, hif]
    by_cases hpost : k ∈ keysOfList (optimizeLoc refRows locData)
    · obtain ⟨r2, hr2, hr2k⟩ := (mem_keysOfList_iff _ _).mp hpost
      exact (mem_keySet_iff _ _).mpr
        ⟨r2, List.mem_append.mpr (Or.inr (List.mem_append.mpr (Or.inl hr2))), hr2k⟩
    · have hlk := lost_key_restored refRows installedModernRows locData k
        ((mem_keysOfList_iff _ _).mpr ⟨r, hr, hrk⟩) hpost hval
      cases hh : vanillaHash installedModernRows k with
      | some v =>
        exact (mem_keySet_iff _ _).mpr
          ⟨⟨k, v, false⟩,
           List.mem_append.mpr (Or.inr (List.mem_append.mpr (Or.inr (hlk.1 v hh)))),
           rfl⟩
      | none =>
        obtain ⟨e, hemem, hek, _, hemiss⟩ := hlk.2 hh
        exact (mem_keySet_iff _ _).mpr ⟨e, List.mem_append.mpr (Or.inl hemiss), hek⟩
  · intro k hpre hpost
    obtain ⟨r, hr, _⟩ := (mem_keysOfList_iff _ _).mp hpre
    have hne : locData.isEmpty = false := by
      cases locData with
      | nil => cases hr
      | cons a t => rfl
    have hif : (if locData.isEmpty then locData else optimizeLoc refRows locData)
        = optimizeLoc refRows locData := by
      rw [hne]
      rfl
    have hlk := lost_key_restored refRows installedModernRows locData k hpre hpost hval
    constructor
    · intro v hv
      rw [prepareTranslationsRows_modern, hif]
      exact List.mem_append.mpr (Or.inr (List.mem_append.mpr (Or.inr (hlk.1 v hv))))
    · intro hnone
      obtain ⟨e, hemem, hek, _, hemiss⟩ := hlk.2 hnone
      refine ⟨e, hemem, hek, ?_⟩
      rw [prepareTranslationsRows_modern, hif]
      exact List.mem_append.mpr (Or.inl hemiss)

/-- Witness for `translation_backfill_restores_lost_keys` at concrete
inputs: a key optimized away is restored from the installed tables when
they define it, and from the reference rows when they do not. -/
theorem translation_backfill_restores_lost_keys_witness :
    keySet [(⟨"k1", "a", false⟩ : LocRow)] ⊆
      keySet (prepareTranslationsRows false (some [⟨"k1", "a", false⟩]) []
        [⟨"k1", "b", false⟩] [⟨"k1", "a", false⟩]) ∧
    (⟨"k1", "b", false⟩ : LocRow) ∈
      prepareTranslationsRows false (some [⟨"k1", "a", false⟩]) []
        [⟨"k1", "b", false⟩] [⟨"k1", "a", false⟩] ∧
    ∃ e ∈ [(⟨"k1", "a", false⟩ : LocRow)], e.key = "k1" ∧
      e ∈ prepareTranslationsRows false (some [⟨"k1", "a", false⟩]) [] []
        [⟨"k1", "a", false⟩] := by
  have h1 := translation_backfill_restores_lost_keys [⟨"k1", "a", false⟩] []
    [⟨"k1", "b", false⟩] [⟨"k1", "a", false⟩] (by decide)
  have h2 := translation_backfill_restores_lost_keys [⟨"k1", "a", false⟩] [] []
    [⟨"k1", "a", false⟩] (by decide)
  exact ⟨h1.1, (h1.2 "k1" (by decide) (by decide)).1 "b" (by decide),
    (h2.2 "k1" (by decide) (by decide)).2 (by decide)⟩
